import Mathlib

/-!
Shallow embedding of the Eagle schematic import plugin
(`eeschema/sch_eagle_plugin.cpp`) and theorems checking the
specification's claims against it.

Modelling conventions.
* Coordinates are integers in the internal mil unit, i.e. the model works
  at the point after the source's millimetre-to-mil conversion
  (`EUNIT_TO_MIL`) has produced `wxPoint` integers; no claim below
  concerns that floating-point conversion itself.
* `wxString` values are Lean `String`s; the string operations the source
  uses (`Replace`, `Lower`, `wxSplit`) are re-implemented on `List Char`
  because the corresponding core-library string functions do not reduce
  in the kernel.
* Geometry primitives that live outside the imported source files
  (`TestSegmentHit`, `SCH_LINE::MidPoint`, the bus-entry glyph size) are
  modelled from the spec and are marked as such in their doc comments.
-/

namespace EaglePlugin

/-- A point with integer coordinates (the source's `wxPoint`, after unit
conversion). -/
structure Pt where
  x : Int
  y : Int
deriving DecidableEq, Repr

instance : Add Pt := ⟨fun p q => ⟨p.x + q.x, p.y + q.y⟩⟩

instance : Sub Pt := ⟨fun p q => ⟨p.x - q.x, p.y - q.y⟩⟩

/-- Modelled from the spec: `TestSegmentHit(p, a, b, 0)` (the geometry
primitive is outside the imported source files).  With zero tolerance the
test asks whether `p` lies exactly on the segment from `a` to `b`:
collinear with it and inside its bounding box. -/
def onSegment (p a b : Pt) : Bool :=
  (b.x - a.x) * (p.y - a.y) == (b.y - a.y) * (p.x - a.x)
    && decide (min a.x b.x ≤ p.x) && decide (p.x ≤ max a.x b.x)
    && decide (min a.y b.y ≤ p.y) && decide (p.y ≤ max a.y b.y)

/-- The schematic layer classification used by the plugin (`LAYER_WIRE`,
`LAYER_BUS`, `LAYER_NOTES`). -/
inductive Layer where
  | wireL
  | busL
  | notesL
deriving DecidableEq, Repr

/-- A schematic line segment (`SCH_LINE`): a layer plus start and end
points. -/
structure Line where
  layer : Layer
  a : Pt
  b : Pt
deriving DecidableEq, Repr

/-- Modelled from the spec: `SCH_LINE::MidPoint`, the midpoint of the
segment, with C++ integer division (truncation toward zero, `Int.tdiv`). -/
def midPoint (l : Line) : Pt :=
  ⟨Int.tdiv (l.a.x + l.b.x) 2, Int.tdiv (l.a.y + l.b.y) 2⟩

/-- First pass of `escapeName`: `wxString::Replace( "~", "~~" )`, which
doubles every tilde (the scan continues after each inserted
replacement, so the inserted tildes are not doubled again). -/
def dupTilde : List Char → List Char
  | [] => []
  | c :: cs => if c = '~' then '~' :: '~' :: dupTilde cs else c :: dupTilde cs

/-- Second pass of `escapeName`: `wxString::Replace( "!", "~" )`. -/
def bangToTilde : List Char → List Char
  | [] => []
  | c :: cs => (if c = '!' then '~' else c) :: bangToTilde cs

/-- `SCH_EAGLE_PLUGIN::escapeName`: replace every `~` by `~~`, then every
`!` by `~`. -/
def escapeName (s : String) : String :=
  String.mk (bangToTilde (dupTilde s.data))

/-- `wxString::Replace( "*", "" )` as used on symbol names. -/
def stripStar (s : String) : String :=
  String.mk (s.data.filter (fun c => c ≠ '*'))

/-- `wxString::Lower` on the ASCII tokens the plugin compares
case-insensitively. -/
def lowerStr (s : String) : String :=
  String.mk (s.data.map Char.toLower)

/-- Splitting helper for `wxSplit`: cut a character list at every
space, keeping empty tokens. -/
def splitChars : List Char → List (List Char)
  | [] => [[]]
  | c :: cs =>
    let r := splitChars cs
    if c = ' ' then [] :: r
    else (c :: r.headI) :: r.tail

/-- Modelled from the spec: `wxSplit(s, ' ')` on a pad list.  An empty
input yields no tokens; otherwise the string is cut at every space,
keeping empty tokens.  (The escape-character feature of `wxSplit` is not
exercised by pad names.) -/
def wxSplitSpace (s : String) : List String :=
  if s.data.isEmpty then [] else (splitChars s.data).map String.mk

/-- The radicand the source feeds to `sqrt(abs(...))` inside
`findNearestLinePoint`.  The source text `((aPoint.x - testpoint.x) ^ 2)
+ ((aPoint.y - testpoint.y) ^ 2)` uses the C++ caret, which is bitwise
exclusive-or, not a power.  Minimising `sqrt(abs(r))` over integer
radicands `r` is the same as minimising `|r|`, so the model drops the
(monotone) float square root and compares `Int.natAbs` of the xor sum
directly. -/
def xorRadicand (p t : Pt) : Nat :=
  (Int.xor (p.x - t.x) 2 + Int.xor (p.y - t.y) 2).natAbs

/-- One comparison step of `findNearestLinePoint` (`if (d < mindistance)
{ mindistance = d; nearestPoint = testpoint; }`).  `none` models the
`FLT_MAX` initial distance, which every radicand undercuts. -/
def nearStep (p : Pt) : Pt × Option Nat → Pt → Pt × Option Nat
  | (best, bd), t =>
    let d := xorRadicand p t
    match bd with
    | none => (t, some d)
    | some m => if d < m then (t, some d) else (best, some m)

/-- The three candidate points a line contributes, in the scan order of
the source: start point, midpoint, end point. -/
def linePoints (l : Line) : List Pt := [l.a, midPoint l, l.b]

/-- All candidate points of a wire list, in scan order. -/
def scanPts (lines : List Line) : List Pt :=
  (lines.map linePoints).flatten

/-- `SCH_EAGLE_PLUGIN::findNearestLinePoint`: scan every line's start,
middle and end point, keeping the first point that strictly improves the
running distance.  The initial `nearestPoint` is the default-constructed
`wxPoint` `(0, 0)`. -/
def findNearestLinePoint (p : Pt) (lines : List Line) : Pt :=
  (lines.foldl (fun s l => (linePoints l).foldl (nearStep p) s) (⟨0, 0⟩, none)).1

/-- Stated from the spec's words for comparison with the source's metric
(claim C5): the true squared Euclidean distance. -/
def euclidSq (p t : Pt) : Int :=
  (p.x - t.x) ^ 2 + (p.y - t.y) ^ 2

/-- Specification-level first argmin: the earliest point of the list
attaining the minimal value of `f` (ties keep the earliest-found
point). -/
def firstArgmin (f : Pt → Nat) : List Pt → Option Pt
  | [] => none
  | t :: ts =>
    match firstArgmin f ts with
    | none => some t
    | some u => if f u < f t then some u else some t

/-- An Eagle rotation attribute (`EROT`): degrees plus mirror and spin
flags. -/
structure Rot where
  degrees : Int
  mirror : Bool
  spin : Bool
deriving DecidableEq, Repr

/-- A decoded `<label>` element (`ELABEL`), at internal units: position,
text size and optional rotation.  Its net name is the enclosing net's
name, which the caller passes separately. -/
structure ELabel where
  pos : Pt
  size : Int
  rot : Option Rot
deriving DecidableEq, Repr

/-- The output of `loadLabel`: either a global label (`SCH_GLOBALLABEL`)
or a plain local label (`SCH_LABEL`), with position, text, text size and
spin style. -/
structure SchLabel where
  global : Bool
  pos : Pt
  text : String
  size : Pt
  spin : Int
deriving DecidableEq, Repr

/-- The label spin style of the source: `int( degrees / 90 ) % 4`,
then, when the label is mirrored and the style is 0 or 2, `(style + 2) %
4`.  C++ truncating division and remainder (`Int.tdiv`, `Int.tmod`). -/
def labelSpin (rot : Option Rot) : Int :=
  match rot with
  | none => 0
  | some r =>
    let s := Int.tmod (Int.tdiv r.degrees 90) 4
    if r.mirror && (s == 0 || s == 2) then Int.tmod (s + 2) 4 else s

/-- `SCH_EAGLE_PLUGIN::loadLabel`.  The label is global exactly when the
net-occurrence count of the enclosing net's name exceeds 1.  The text is
the escaped net name, the text size is `size × size`.  If the label's
position hits no wire of the segment (zero tolerance), and the segment
has at least one wire, the label is re-homed to
`findNearestLinePoint`. (In the source the global and local branches
duplicate this logic; the global branch computes the new position before
checking that a wire exists, with the same outcome.) -/
def loadLabel (counts : String → Nat) (netName : String) (el : ELabel)
    (wires : List Line) : SchLabel :=
  let onWire := wires.any (fun w => onSegment el.pos w.a w.b)
  let pos :=
    if !onWire && !wires.isEmpty then findNearestLinePoint el.pos wires else el.pos
  { global := 1 < counts netName
    pos := pos
    text := escapeName netName
    size := ⟨el.size, el.size⟩
    spin := labelSpin el.rot }

/-- `SCH_EAGLE_PLUGIN::countNets`, with each sheet abstracted to the
list of names of its `<net>` elements: the number of net elements named
`n` over all sheets of the document. -/
def countNets (sheets : List (List String)) (n : String) : Nat :=
  (sheets.map (fun sh => sh.count n)).sum

/-- A child of a `<segment>` element, as `loadSegments` dispatches on
it: a wire (already decoded to internal units by `loadWire`), a
junction, a label, or a `pinref` (consumed without producing an item). -/
inductive SegChild where
  | wireC (w : Line)
  | junctionC (p : Pt)
  | labelC (el : ELabel)
  | pinrefC
deriving DecidableEq, Repr

/-- One `<segment>` element: its children in document order. -/
structure Segment where
  children : List SegChild
deriving DecidableEq, Repr

/-- An item `loadSegments` appends to the screen. -/
inductive NetItem where
  | junctionI (p : Pt)
  | labelI (l : SchLabel)
  | wireI (w : Line)
deriving DecidableEq, Repr

/-- The first pass of `loadSegments` over a segment: collect the wire
children, in order (`segmentWires`). -/
def segmentWires (seg : Segment) : List Line :=
  seg.children.filterMap (fun c =>
    match c with
    | .wireC w => some w
    | _ => none)

/-- Whether the second pass of `loadSegments` sets `labelled`: the
segment has at least one label child. -/
def segLabelled (seg : Segment) : Bool :=
  seg.children.any (fun c =>
    match c with
    | .labelC _ => true
    | _ => false)

/-- The second pass of `loadSegments` over a segment's children:
junctions become junction items, labels go through `loadLabel` (against
the segment's wire list), everything else produces nothing. -/
def segmentWalkItems (counts : String → Nat) (netName : String)
    (seg : Segment) : List NetItem :=
  seg.children.filterMap (fun c =>
    match c with
    | .junctionC p => some (.junctionI p)
    | .labelC el => some (.labelI (loadLabel counts netName el (segmentWires seg)))
    | _ => none)

/-- Specification-level description of the implicit label the source
synthesises for a segment (stated for comparison in claim C2's amended
theorem): nothing when the segment carries a label or has no wire;
otherwise a global label whenever the net's cross-sheet occurrence count
exceeds 1; otherwise a local label exactly when the net has more than
one segment on this sheet; at the first wire's midpoint, with the
escaped net name, text size 10 × 10 and spin style 0. -/
def segmentSynth (counts : String → Nat) (netName : String)
    (segmentCount : Nat) (seg : Segment) : Option SchLabel :=
  match (segmentWires seg).head? with
  | none => none
  | some w =>
    if segLabelled seg then none
    else if 1 < counts netName then
      some { global := true, pos := midPoint w, text := escapeName netName,
             size := ⟨10, 10⟩, spin := 0 }
    else if 1 < segmentCount then
      some { global := false, pos := midPoint w, text := escapeName netName,
             size := ⟨10, 10⟩, spin := 0 }
    else none

/-- `SCH_EAGLE_PLUGIN::loadSegments`, one segment: the walk items are
appended first, then — when no label child was seen and the segment has
a first wire — the synthesised implicit label (global when the net
count exceeds 1, otherwise local only when the net has more than one
segment on this sheet), and finally the segment's wires. -/
def loadSegment (counts : String → Nat) (netName : String)
    (segmentCount : Nat) (seg : Segment) : List NetItem :=
  let wires := segmentWires seg
  let walk := segmentWalkItems counts netName seg
  let synth : List NetItem :=
    match wires.head? with
    | none => []
    | some w =>
      if segLabelled seg then []
      else if 1 < counts netName then
        [.labelI { global := true, pos := midPoint w,
                   text := escapeName netName, size := ⟨10, 10⟩, spin := 0 }]
      else if 1 < segmentCount then
        [.labelI { global := false, pos := midPoint w,
                   text := escapeName netName, size := ⟨10, 10⟩, spin := 0 }]
      else []
  walk ++ synth ++ wires.map .wireI

/-- `SCH_EAGLE_PLUGIN::loadSegments` over all segments of one net
element; `segmentCount` is `countChildren( aSegmentsNode, "segment" )`,
the number of segments of this net on this sheet. -/
def loadSegments (counts : String → Nat) (netName : String)
    (segments : List Segment) : List NetItem :=
  (segments.map (loadSegment counts netName segments.length)).flatten

/-! ### Symbol and library loading -/

/-- The electrical pin types the plugin assigns (`ELECTRICAL_PINTYPE`).
`openCollector` (`PIN_OPENCOLLECTOR`) is part of the target enumeration
and is included so claim C8 can be stated, although the source never
assigns it. -/
inductive PinType where
  | powerIn
  | passive
  | output
  | input
  | nc
  | bidi
  | openEmitter
  | openCollector
  | tristate
  | unspecified
deriving DecidableEq, Repr

/-- A decoded `<pin>` element (`EPIN`); geometry attributes that play no
role in the claims (position, rotation) are omitted. -/
structure EPin where
  name : String
  direction : Option String
  visible : Option String
  length : Option String
  func : Option String
deriving DecidableEq, Repr

/-- A pin draw item (`LIB_PIN`).  `nameTextSize`/`numberTextSize` are
`none` while left at the library default. -/
structure LibPin where
  name : String
  number : String
  unit : Nat
  etype : PinType
  nameTextSize : Option Int
  numberTextSize : Option Int
  plength : Option Int
deriving DecidableEq, Repr

/-- `SCH_EAGLE_PLUGIN::loadPin` (the parts that bear on the claims):
name, unit, visibility-driven text sizes and length.  The electrical
type is left at the `LIB_PIN` default, which is modelled from the spec
as `unspecified` (the constructor is outside the imported sources). -/
def loadPin (ePin : EPin) (gateNumber : Nat) : LibPin :=
  let nameSize : Option Int :=
    match ePin.visible with
    | some v => if v == "off" || v == "pad" then some 0 else none
    | none => none
  let numberSize : Option Int :=
    match ePin.visible with
    | some v => if v == "off" || v == "pin" then some 0 else none
    | none => none
  let plen : Option Int :=
    match ePin.length with
    | some s =>
      if s == "short" then some 100
      else if s == "middle" then some 200
      else if s == "long" then some 300
      else if s == "point" then some 0
      else none
    | none => none
  { name := ePin.name, number := "", unit := gateNumber,
    etype := .unspecified, nameTextSize := nameSize,
    numberTextSize := numberSize, plength := plen }

/-- The `if`/`else if` chain of `loadSymbol` mapping a present foreign
direction token (compared after `wxString::Lower`) to an electrical pin
type.  Note the `oc` row: the source assigns `PIN_OPENEMITTER`. -/
def pinDirectionType (d : String) : PinType :=
  if lowerStr d == "sup" then .powerIn
  else if lowerStr d == "pas" then .passive
  else if lowerStr d == "out" then .output
  else if lowerStr d == "in" then .input
  else if lowerStr d == "nc" then .nc
  else if lowerStr d == "io" then .bidi
  else if lowerStr d == "oc" then .openEmitter
  else if lowerStr d == "hiz" then .tristate
  else .unspecified

/-- A `<connect>` entry of a device: gate name, pin name, pad list. -/
structure Connect where
  gate : String
  pin : String
  pad : String
deriving DecidableEq, Repr

/-- A decoded `<device>` (`EDEVICE`): name, optional package, connect
entries. -/
structure EDevice where
  name : String
  package : Option String
  connects : List Connect
deriving DecidableEq, Repr

/-- The connect-dispatch part of `loadSymbol` for one pin.  `pin1` is
the pin as prepared by `loadPin` plus the direction-driven type
assignment; `pincount` is the already-incremented 1-based encounter
index of this pin within the symbol.

With connect entries present, the first entry matching `(gate name, pin
name)` fans the pin out into one clone per token of the pad list split
on spaces — sharing the escaped pin name, each clone numbered with its
pad token, with the number text suppressed when there is more than one
pad — and a pin matching no entry produces nothing.  With no connect
entries the pin is added once, numbered by its encounter index. -/
def processPin (dev : EDevice) (gateName : String) (gateNumber : Nat)
    (pincount : Nat) (pin1 : LibPin) : List LibPin :=
  if dev.connects.isEmpty then
    [{ pin1 with unit := gateNumber, number := toString pincount }]
  else
    match dev.connects.find? (fun k => k.gate == gateName && pin1.name == k.pin) with
    | none => []
    | some c =>
      let pads := wxSplitSpace c.pad
      let pin2 :=
        { pin1 with
          unit := gateNumber
          name := escapeName pin1.name
          numberTextSize := if 1 < pads.length then some 0 else pin1.numberTextSize }
      pads.map (fun pad => { pin2 with number := pad })

/-- A child of a `<symbol>` element, as `loadSymbol` dispatches on it.
Geometric payloads of the non-pin primitives are not retained: the
claims about `loadSymbol` concern item kinds, pin fields and unit tags
only.  A `wire` child carries whether it has a `curve` attribute (arc)
or not (polyline); a `text` child carries its content. -/
inductive SymChild where
  | circleC
  | rectC
  | polygonC
  | wireC (curved : Bool)
  | textC (content : String)
  | pinC (p : EPin)
deriving DecidableEq, Repr

/-- A draw item added to a part (`LIB_ITEM`), tagged with its unit. -/
inductive LibItem where
  | circleI (unit : Nat)
  | rectI (unit : Nat)
  | polyI (unit : Nat)
  | arcI (unit : Nat)
  | textI (content : String) (unit : Nat)
  | pinI (p : LibPin)
deriving DecidableEq, Repr

/-- The unit tag of a draw item. -/
def LibItem.unit : LibItem → Nat
  | .circleI u => u
  | .rectI u => u
  | .polyI u => u
  | .arcI u => u
  | .textI _ u => u
  | .pinI p => p.unit

/-- `wxString::Upper` (ASCII), used on symbol text content. -/
def upperStr (s : String) : String :=
  String.mk (s.data.map Char.toUpper)

/-- The child loop of `SCH_EAGLE_PLUGIN::loadSymbol`, threading the pin
counter: returns the draw items added, the final pin count and the
`ispower` flag (set when some pin's direction lowers to `sup`).  Text
children whose upper-cased content is `>NAME` or `>VALUE` update the
part's fields instead of producing a draw item. -/
def symGo (dev : EDevice) (gateNumber : Nat) (gateName : String) :
    Nat → List SymChild → List LibItem × Nat × Bool
  | pc, [] => ([], pc, false)
  | pc, c :: cs =>
    match c with
    | .circleC =>
      let (its, pc', isp) := symGo dev gateNumber gateName pc cs
      (.circleI gateNumber :: its, pc', isp)
    | .rectC =>
      let (its, pc', isp) := symGo dev gateNumber gateName pc cs
      (.rectI gateNumber :: its, pc', isp)
    | .polygonC =>
      let (its, pc', isp) := symGo dev gateNumber gateName pc cs
      (.polyI gateNumber :: its, pc', isp)
    | .wireC curved =>
      let (its, pc', isp) := symGo dev gateNumber gateName pc cs
      ((if curved then .arcI gateNumber else .polyI gateNumber) :: its, pc', isp)
    | .textC content =>
      let (its, pc', isp) := symGo dev gateNumber gateName pc cs
      if upperStr content == ">NAME" || upperStr content == ">VALUE" then
        (its, pc', isp)
      else
        (.textI content gateNumber :: its, pc', isp)
    | .pinC ePin =>
      let pin0 := loadPin ePin gateNumber
      let thisPower :=
        match ePin.direction with
        | some d => lowerStr d == "sup"
        | none => false
      let pin1 :=
        match ePin.direction with
        | some d => { pin0 with etype := pinDirectionType d }
        | none => pin0
      let added := (processPin dev gateName gateNumber (pc + 1) pin1).map .pinI
      let (its, pc', isp) := symGo dev gateNumber gateName (pc + 1) cs
      (added ++ its, pc', thisPower || isp)

/-- `SCH_EAGLE_PLUGIN::loadSymbol`: run the child loop from pin count 0
and apply the final `return pincount == 1 ? ispower : false`. -/
def loadSymbol (dev : EDevice) (gateNumber : Nat) (gateName : String)
    (children : List SymChild) : List LibItem × Bool :=
  let (its, pc, isp) := symGo dev gateNumber gateName 0 children
  (its, if pc == 1 then isp else false)

/-- A `<gate>` of a deviceset, with the children of the symbol node it
references already resolved through the library's symbol table (a gate
referencing a missing symbol would dereference a null node in the source
and can produce no part). -/
structure EGate where
  name : String
  symbol : List SymChild
deriving DecidableEq, Repr

/-- An internal reusable part (`LIB_PART`), as far as the claims are
concerned: name, unit count, draw items, reference-field state and the
power flag. -/
structure LibPart where
  name : String
  unitCount : Nat
  items : List LibItem
  refVisible : Bool
  refText : Option String
  power : Bool
deriving DecidableEq, Repr

/-- The gate loop of `SCH_EAGLE_PLUGIN::loadLibrary` for one device:
gate indices count up from the given start; the returned flag is the
`ispower` result of the last gate processed (the source overwrites
`ispower` on every iteration). -/
def loadDeviceGo (dev : EDevice) : Nat → List EGate → List LibItem × Bool
  | _, [] => ([], false)
  | i, g :: gs =>
    let (its, isp) := loadSymbol dev i g.name g.symbol
    let (rest, isplast) := loadDeviceGo dev (i + 1) gs
    (its ++ rest, if gs.isEmpty then isp else isplast)

/-- The per-device body of `SCH_EAGLE_PLUGIN::loadLibrary`: the part's
name is the deviceset name concatenated with the device name, `*`
stripped; the unit count is the number of gates; the gates are processed
with 1-based indices; an empty reference prefix hides the reference
field; the part is a power symbol exactly when it has one gate and that
gate's symbol qualified. -/
def loadDevice (devicesetName : String) (pfx : Option String)
    (dev : EDevice) (gates : List EGate) : LibPart :=
  let pfxStr := pfx.getD ""
  let (items, isp) := loadDeviceGo dev 1 gates
  { name := stripStar (devicesetName ++ dev.name)
    unitCount := gates.length
    items := items
    refVisible := !(pfxStr.data.isEmpty)
    refText := if pfxStr.data.isEmpty then none else some pfxStr
    power := gates.length == 1 && isp }

/-! ### Instance loading -/

/-- A `<part>` entry of the schematic (`EPART`). -/
structure EPart where
  name : String
  library : String
  deviceset : String
  device : String
  value : Option String
deriving DecidableEq, Repr

/-- A decoded `<instance>` (`EINSTANCE`), at internal units; the fields
`loadInstance` reads before and at the append.  The `<attribute>`
children and rotation handling only mutate the appended component's
fields and are omitted: the claims about `loadInstance` concern its skip
behaviour. -/
structure EInstance where
  part : String
  gate : String
  pos : Pt
deriving DecidableEq, Repr

/-- A placed component (`SCH_COMPONENT`), restricted to the fields the
claims mention. -/
structure SchComponent where
  libId : String
  unit : Nat
  pos : Pt
  reference : String
  value : String
deriving DecidableEq, Repr

/-- The state `loadInstance` works on: the per-schematic part table
(`m_partlist`), the gate-unit table of the eagle libraries (read through
`operator[]`, which defaults to 0 for a missing key), the output part
library (`m_partlib`, keyed by symbol name) and the current sheet's
appended components. -/
structure ImportState where
  partlist : List (String × EPart)
  gateUnit : String → Nat
  partlib : List (String × LibPart)
  sheet : List SchComponent

/-- `SCH_EAGLE_PLUGIN::loadInstance`.  The source reads
`m_partlist[einstance.part].get()` without a null check: for a part name
absent from the table, `std::map::operator[]` inserts a null
`unique_ptr` and the immediate `epart->library` dereference is undefined
behaviour — modelled as `Except.error`.  When the symbol name
(deviceset + device with `*` stripped) finds no part in the output
library, the instance is skipped (`return` before anything is appended).
Otherwise one component is appended: reference text is the instance's
part name, value text is the part's declared value or else the symbol
name. -/
def loadInstance (st : ImportState) (inst : EInstance) : Except Unit ImportState :=
  match st.partlist.lookup inst.part with
  | none => .error ()
  | some epart =>
    let symbolname := stripStar (epart.deviceset ++ epart.device)
    let gatename := epart.deviceset ++ epart.device ++ inst.gate
    let unit := st.gateUnit gatename
    match st.partlib.lookup symbolname with
    | none => .ok st
    | some _ =>
      .ok { st with
            sheet := st.sheet ++
              [{ libId := symbolname, unit := unit, pos := inst.pos,
                 reference := inst.part,
                 value := epart.value.getD symbolname }] }

/-! ### The bus-entry synthesiser

`addBusEntries` mutates the sheet's live item list while iterating over
it.  The model gives every item a numeric identity and runs both loops
over a snapshot of the identities taken when the respective loop starts,
re-reading each item from the current sheet when its identity is
reached.  This matches the source traversal:

* the outer loop only acts on bus-layer lines, which are never deleted
  or modified, and the items appended during a pass (bus entries and
  markers) are never bus-layer lines, so skipping them changes nothing;
* the inner loop captures `nextline` before any mutation, only ever
  deletes the line currently being processed, and likewise only skips
  over the inert appended entries and markers.
-/

/-- A sheet item as far as `addBusEntries` is concerned.  A label item
records only its position (all `moveLabels` reads); `SCH_LABEL_T` and
`SCH_GLOBAL_LABEL_T` behave identically there. -/
inductive SheetItem where
  | lineI (l : Line)
  | entryI (pos : Pt) (slash : Bool)
  | markerI (pos : Pt)
  | labelI (pos : Pt)
deriving DecidableEq, Repr

/-- The sheet: items with identities, and the next fresh identity. -/
structure Sheet where
  items : List (Nat × SheetItem)
  nextId : Nat
deriving DecidableEq, Repr

/-- Find the line with the given identity, if that identity names a
line. -/
def findLine : List (Nat × SheetItem) → Nat → Option Line
  | [], _ => none
  | (j, it) :: rest, i =>
    if j = i then
      match it with
      | .lineI l => some l
      | _ => none
    else findLine rest i

/-- The line with identity `i` on the sheet, if any. -/
def Sheet.getLine (sh : Sheet) (i : Nat) : Option Line :=
  findLine sh.items i

/-- `SCH_SCREEN::Append`. -/
def Sheet.append (sh : Sheet) (it : SheetItem) : Sheet :=
  ⟨sh.items ++ [(sh.nextId, it)], sh.nextId + 1⟩

/-- `SCH_SCREEN::DeleteItem` on the item with identity `i`. -/
def Sheet.delete (sh : Sheet) (i : Nat) : Sheet :=
  ⟨sh.items.filter (fun p => p.1 ≠ i), sh.nextId⟩

/-- `SCH_LINE::SetStartPoint` on the line with identity `i`. -/
def Sheet.setStart (sh : Sheet) (i : Nat) (p : Pt) : Sheet :=
  ⟨sh.items.map (fun q =>
      match q.2 with
      | .lineI l => if q.1 = i then (q.1, .lineI { l with a := p }) else q
      | _ => q),
    sh.nextId⟩

/-- `SCH_LINE::SetEndPoint` on the line with identity `i`. -/
def Sheet.setEnd (sh : Sheet) (i : Nat) (p : Pt) : Sheet :=
  ⟨sh.items.map (fun q =>
      match q.2 with
      | .lineI l => if q.1 = i then (q.1, .lineI { l with b := p }) else q
      | _ => q),
    sh.nextId⟩

/-- `SCH_EAGLE_PLUGIN::moveLabels`: every label whose position
hit-tests against the current segment of the wire with identity `wid`
is moved to `newPos`. -/
def moveLabels (sh : Sheet) (wid : Nat) (newPos : Pt) : Sheet :=
  match sh.getLine wid with
  | none => sh
  | some w =>
    ⟨sh.items.map (fun q =>
        match q.2 with
        | .labelI p => if onSegment p w.a w.b then (q.1, .labelI newPos) else q
        | _ => q),
      sh.nextId⟩

/-- Case A of `addBusEntries` (horizontal wire, vertical bus), wire
start on the bus: probe the bus 100 units above/below the coincident
point to pick the glyph, re-home the start 100 units away from the bus,
or emit a marker when both probes miss. -/
def caseAStart (sh : Sheet) (wid : Nat) (ls le ba bb : Pt) : Sheet :=
  if le.x < ba.x then
    if onSegment (ls + ⟨0, -100⟩) ba bb then
      let sh1 := sh.append (.entryI (ls + ⟨-100, 0⟩) true)
      let sh2 := moveLabels sh1 wid (ls + ⟨-100, 0⟩)
      sh2.setStart wid (ls + ⟨-100, 0⟩)
    else if onSegment (ls + ⟨0, 100⟩) ba bb then
      let sh1 := sh.append (.entryI (ls + ⟨-100, 0⟩) false)
      let sh2 := moveLabels sh1 wid (ls + ⟨-100, 0⟩)
      sh2.setStart wid (ls + ⟨-100, 0⟩)
    else sh.append (.markerI ls)
  else
    if onSegment (ls + ⟨0, -100⟩) ba bb then
      let sh1 := sh.append (.entryI (ls + ⟨0, -100⟩) false)
      let sh2 := moveLabels sh1 wid (ls + ⟨100, 0⟩)
      sh2.setStart wid (ls + ⟨100, 0⟩)
    else if onSegment (ls + ⟨0, 100⟩) ba bb then
      let sh1 := sh.append (.entryI (ls + ⟨0, 100⟩) true)
      let sh2 := moveLabels sh1 wid (ls + ⟨100, 0⟩)
      sh2.setStart wid (ls + ⟨100, 0⟩)
    else sh.append (.markerI ls)

/-- Case A of `addBusEntries`, wire end on the bus (the side test reads
the stale `linestart`; the first probe of the left branch is 100 units
below in screen coordinates, mirroring the source's order). -/
def caseAEnd (sh : Sheet) (wid : Nat) (ls le ba bb : Pt) : Sheet :=
  if ls.x < ba.x then
    if onSegment (le + ⟨0, 100⟩) ba bb then
      let sh1 := sh.append (.entryI (le + ⟨-100, 0⟩) false)
      let sh2 := moveLabels sh1 wid (le + ⟨-100, 0⟩)
      sh2.setEnd wid (le + ⟨-100, 0⟩)
    else if onSegment (le + ⟨0, -100⟩) ba bb then
      let sh1 := sh.append (.entryI (le + ⟨-100, 0⟩) true)
      let sh2 := moveLabels sh1 wid (le + ⟨-100, 0⟩)
      sh2.setEnd wid (le + ⟨-100, 0⟩)
    else sh.append (.markerI le)
  else
    if onSegment (le + ⟨0, -100⟩) ba bb then
      let sh1 := sh.append (.entryI (le + ⟨0, -100⟩) false)
      let sh2 := moveLabels sh1 wid (le + ⟨100, 0⟩)
      sh2.setEnd wid (le + ⟨100, 0⟩)
    else if onSegment (le + ⟨0, 100⟩) ba bb then
      let sh1 := sh.append (.entryI (le + ⟨0, 100⟩) true)
      let sh2 := moveLabels sh1 wid (le + ⟨100, 0⟩)
      sh2.setEnd wid (le + ⟨100, 0⟩)
    else sh.append (.markerI le)

/-- Case B of `addBusEntries` (vertical wire, horizontal bus), wire
start on the bus.  In the second branch of the upper case the source
appends the entry at `linestart + (0, 100)` while re-homing the start to
`linestart + (0, -100)`; the model reproduces this asymmetry
verbatim. -/
def caseBStart (sh : Sheet) (wid : Nat) (ls le ba bb : Pt) : Sheet :=
  if le.y < ba.y then
    if onSegment (ls + ⟨-100, 0⟩) ba bb then
      let sh1 := sh.append (.entryI (ls + ⟨-100, 0⟩) true)
      let sh2 := moveLabels sh1 wid (ls + ⟨0, -100⟩)
      sh2.setStart wid (ls + ⟨0, -100⟩)
    else if onSegment (ls + ⟨100, 0⟩) ba bb then
      let sh1 := sh.append (.entryI (ls + ⟨0, 100⟩) false)
      let sh2 := moveLabels sh1 wid (ls + ⟨0, -100⟩)
      sh2.setStart wid (ls + ⟨0, -100⟩)
    else sh.append (.markerI ls)
  else
    if onSegment (ls + ⟨-100, 0⟩) ba bb then
      let sh1 := sh.append (.entryI (ls + ⟨-100, 0⟩) false)
      let sh2 := moveLabels sh1 wid (ls + ⟨0, 100⟩)
      sh2.setStart wid (ls + ⟨0, 100⟩)
    else if onSegment (ls + ⟨100, 0⟩) ba bb then
      let sh1 := sh.append (.entryI (ls + ⟨100, 0⟩) true)
      let sh2 := moveLabels sh1 wid (ls + ⟨0, 100⟩)
      sh2.setStart wid (ls + ⟨0, 100⟩)
    else sh.append (.markerI ls)

/-- Case B of `addBusEntries`, wire end on the bus. -/
def caseBEnd (sh : Sheet) (wid : Nat) (ls le ba bb : Pt) : Sheet :=
  if ls.y < ba.y then
    if onSegment (le + ⟨-100, 0⟩) ba bb then
      let sh1 := sh.append (.entryI (le + ⟨-100, 0⟩) true)
      let sh2 := moveLabels sh1 wid (le + ⟨0, -100⟩)
      sh2.setEnd wid (le + ⟨0, -100⟩)
    else if onSegment (le + ⟨100, 0⟩) ba bb then
      let sh1 := sh.append (.entryI (le + ⟨0, -100⟩) false)
      let sh2 := moveLabels sh1 wid (le + ⟨0, -100⟩)
      sh2.setEnd wid (le + ⟨0, -100⟩)
    else sh.append (.markerI le)
  else
    if onSegment (le + ⟨-100, 0⟩) ba bb then
      let sh1 := sh.append (.entryI (le + ⟨-100, 0⟩) false)
      let sh2 := moveLabels sh1 wid (le + ⟨0, 100⟩)
      sh2.setEnd wid (le + ⟨0, 100⟩)
    else if onSegment (le + ⟨100, 0⟩) ba bb then
      let sh1 := sh.append (.entryI (le + ⟨0, 100⟩) true)
      let sh2 := moveLabels sh1 wid (le + ⟨0, 100⟩)
      sh2.setEnd wid (le + ⟨0, 100⟩)
    else sh.append (.markerI le)

/-- The start point the diagonal start case re-homes to, by the sign of
the wire's direction vector `linestart - lineend`. -/
def diagNewStart (ls le : Pt) : Pt :=
  let v := ls - le
  if 0 < v.x then
    if 0 < v.y then ls + ⟨-100, -100⟩ else ls + ⟨-100, 100⟩
  else
    if 0 < v.y then ls + ⟨100, -100⟩ else ls + ⟨100, 100⟩

/-- The end point the diagonal end case re-homes to. -/
def diagNewEnd (ls le : Pt) : Pt :=
  let v := ls - le
  if 0 < v.x then
    if 0 < v.y then le + ⟨100, 100⟩ else le + ⟨100, -100⟩
  else
    if 0 < v.y then le + ⟨-100, 100⟩ else le + ⟨-100, -100⟩

/-- The diagonal ("bus entry wire isn't horizontal or vertical") case of
`addBusEntries`, wire start on the bus: one glyph/offset combination per
sign quadrant of the direction vector; the wire is deleted instead of
re-homed when the new start equals the (stale) `lineend`. -/
def diagStart (sh : Sheet) (wid : Nat) (ls le : Pt) : Sheet :=
  let v := ls - le
  if 0 < v.x then
    if 0 < v.y then
      let p := ls + ⟨-100, -100⟩
      let sh1 := sh.append (.entryI p false)
      let sh2 := moveLabels sh1 wid p
      if p = le then sh2.delete wid else sh2.setStart wid p
    else
      let p := ls + ⟨-100, 100⟩
      let sh1 := sh.append (.entryI p true)
      let sh2 := moveLabels sh1 wid p
      if p = le then sh2.delete wid else sh2.setStart wid p
  else
    if 0 < v.y then
      let sh1 := sh.append (.entryI ls true)
      let sh2 := moveLabels sh1 wid (ls + ⟨100, -100⟩)
      if ls + ⟨100, -100⟩ = le then sh2.delete wid
      else sh2.setStart wid (ls + ⟨100, -100⟩)
    else
      let sh1 := sh.append (.entryI ls false)
      let sh2 := moveLabels sh1 wid (ls + ⟨100, 100⟩)
      if ls + ⟨100, 100⟩ = le then sh2.delete wid
      else sh2.setStart wid (ls + ⟨100, 100⟩)

/-- The diagonal case of `addBusEntries`, wire end on the bus; the wire
is deleted when the new end equals the (stale) `linestart`. -/
def diagEnd (sh : Sheet) (wid : Nat) (ls le : Pt) : Sheet :=
  let v := ls - le
  if 0 < v.x then
    if 0 < v.y then
      let p := le + ⟨100, 100⟩
      let sh1 := sh.append (.entryI le false)
      let sh2 := moveLabels sh1 wid p
      if p = ls then sh2.delete wid else sh2.setEnd wid p
    else
      let p := le + ⟨100, -100⟩
      let sh1 := sh.append (.entryI le true)
      let sh2 := moveLabels sh1 wid p
      if p = ls then sh2.delete wid else sh2.setEnd wid p
  else
    if 0 < v.y then
      let p := le + ⟨-100, 100⟩
      let sh1 := sh.append (.entryI p true)
      let sh2 := moveLabels sh1 wid p
      if p = ls then sh2.delete wid else sh2.setEnd wid p
    else
      let p := le + ⟨-100, -100⟩
      let sh1 := sh.append (.entryI p false)
      let sh2 := moveLabels sh1 wid p
      if p = ls then sh2.delete wid else sh2.setEnd wid p

/-- The inner-loop body of `addBusEntries` for the item with identity
`wid` against the bus from `ba` to `bb`: run Case A, then Case B (both
testing against the local endpoint copies read at loop entry), re-read
the wire's endpoints, then run the diagonal start and end cases.  When
the diagonal start case has deleted the wire and the stale end point
still hits the bus, the source goes on to mutate the freed line — the
model reports this as an error. -/
def processWire (ba bb : Pt) (sh : Sheet) (wid : Nat) : Except Unit Sheet :=
  match sh.getLine wid with
  | none => .ok sh
  | some w =>
    if w.layer = .wireL then
      let ls := w.a
      let le := w.b
      let sh1 :=
        if ls.y == le.y && ba.x == bb.x then
          let shA := if onSegment ls ba bb then caseAStart sh wid ls le ba bb else sh
          if onSegment le ba bb then caseAEnd shA wid ls le ba bb else shA
        else sh
      let sh2 :=
        if ls.x == le.x && ba.y == bb.y then
          let shB := if onSegment ls ba bb then caseBStart sh1 wid ls le ba bb else sh1
          if onSegment le ba bb then caseBEnd shB wid ls le ba bb else shB
        else sh1
      match sh2.getLine wid with
      | none => .ok sh2
      | some w2 =>
        let ls2 := w2.a
        let le2 := w2.b
        let sh3 := if onSegment ls2 ba bb then diagStart sh2 wid ls2 le2 else sh2
        if onSegment le2 ba bb then
          match sh3.getLine wid with
          | none => .error ()
          | some _ => .ok (diagEnd sh3 wid ls2 le2)
        else .ok sh3
    else .ok sh

/-- The inner loop of `addBusEntries` over a snapshot of item
identities. -/
def innerGo (ba bb : Pt) : List Nat → Sheet → Except Unit Sheet
  | [], sh => .ok sh
  | i :: rest, sh =>
    match processWire ba bb sh i with
    | .error e => .error e
    | .ok sh' => innerGo ba bb rest sh'

/-- One pass of the inner loop of `addBusEntries` for a fixed bus. -/
def innerPass (ba bb : Pt) (sh : Sheet) : Except Unit Sheet :=
  innerGo ba bb (sh.items.map Prod.fst) sh

/-- The outer loop of `addBusEntries` over a snapshot of item
identities: every bus-layer line runs an inner pass with its (immutable)
endpoints. -/
def busGo : List Nat → Sheet → Except Unit Sheet
  | [], sh => .ok sh
  | i :: rest, sh =>
    match sh.getLine i with
    | some l =>
      if l.layer = .busL then
        match innerPass l.a l.b sh with
        | .error e => .error e
        | .ok sh' => busGo rest sh'
      else busGo rest sh
    | none => busGo rest sh

/-- `SCH_EAGLE_PLUGIN::addBusEntries`. -/
def addBusEntries (sh : Sheet) : Except Unit Sheet :=
  busGo (sh.items.map Prod.fst) sh

/-- Modelled from the spec: the far end of a bus-entry connector glyph.
`SCH_BUS_WIRE_ENTRY` (outside the imported sources) spans 100 units
diagonally from its position: to `pos + (100, -100)` for the `/` glyph
and to `pos + (100, 100)` for the `\` glyph. -/
def entryFarEnd (pos : Pt) (slash : Bool) : Pt :=
  pos + (if slash then ⟨100, -100⟩ else ⟨100, 100⟩)

/-- The number of bus-entry connector items associated with the point
`p`: those with an end (position or far end) at `p`. -/
def entriesFor (sh : Sheet) (p : Pt) : Nat :=
  sh.items.countP (fun q =>
    match q.2 with
    | .entryI pos sl => pos == p || entryFarEnd pos sl == p
    | _ => false)

/-- The number of diagnostic markers at the point `p`. -/
def markersFor (sh : Sheet) (p : Pt) : Nat :=
  sh.items.countP (fun q =>
    match q.2 with
    | .markerI pos => pos == p
    | _ => false)

/-- All endpoints of wire-layer lines on the sheet. -/
def wireEndpoints (sh : Sheet) : List Pt :=
  sh.items.flatMap (fun q =>
    match q.2 with
    | .lineI l => if l.layer == .wireL then [l.a, l.b] else []
    | _ => [])

/-- Whether `p` lies exactly on some bus-layer line of the sheet. -/
def onSomeBus (sh : Sheet) (p : Pt) : Bool :=
  sh.items.any (fun q =>
    match q.2 with
    | .lineI l => l.layer == .busL && onSegment p l.a l.b
    | _ => false)

/-- Claim C1's per-point property: exactly one bus-entry connector and
no marker for the point, or no connector and exactly one marker. -/
def claimC1At (sh : Sheet) (p : Pt) : Bool :=
  (entriesFor sh p == 1 && markersFor sh p == 0)
    || (entriesFor sh p == 0 && markersFor sh p == 1)

/-- Claim C1's property for a whole sheet: every wire-layer endpoint
lying exactly on a bus-layer line satisfies `claimC1At`. -/
def claimC1 (sh : Sheet) : Bool :=
  (wireEndpoints sh).all (fun p => !onSomeBus sh p || claimC1At sh p)

/-! ### Lemmas about the nearest-point scan -/

theorem foldl_nearStep_some (p : Pt) (pts : List Pt) : ∀ (b : Pt) (m : Nat),
    pts.foldl (nearStep p) (b, some m)
      = match firstArgmin (xorRadicand p) pts with
        | none => (b, some m)
        | some u =>
          if xorRadicand p u < m then (u, some (xorRadicand p u)) else (b, some m) := by
  induction pts with
  | nil => intro b m; rfl
  | cons t ts ih =>
    intro b m
    by_cases h : xorRadicand p t < m
    · have hstep : (nearStep p (b, some m) t) = (t, some (xorRadicand p t)) := by
        simp [nearStep, h]
      rw [List.foldl_cons, hstep, ih]
      cases hfa : firstArgmin (xorRadicand p) ts with
      | none => simp [firstArgmin, hfa, h]
      | some u =>
        by_cases hu : xorRadicand p u < xorRadicand p t
        · have hum : xorRadicand p u < m := lt_trans hu h
          simp [firstArgmin, hfa, hu, hum]
        · simp [firstArgmin, hfa, hu, h]
    · have hstep : (nearStep p (b, some m) t) = (b, some m) := by
        simp [nearStep, h]
      rw [List.foldl_cons, hstep, ih]
      cases hfa : firstArgmin (xorRadicand p) ts with
      | none => simp [firstArgmin, hfa, h]
      | some u =>
        by_cases hu : xorRadicand p u < xorRadicand p t
        · simp [firstArgmin, hfa, hu]
        · have hum : ¬ xorRadicand p u < m := by omega
          simp [firstArgmin, hfa, hu, h, hum]

theorem findNearest_eq_firstArgmin (p : Pt) (lines : List Line) :
    findNearestLinePoint p lines
      = match firstArgmin (xorRadicand p) (scanPts lines) with
        | none => (⟨0, 0⟩ : Pt)
        | some u => u := by
  have hflat : scanPts lines = (lines.map linePoints).flatten := rfl
  have hf : (scanPts lines).foldl (nearStep p) ((⟨0, 0⟩ : Pt), none)
      = lines.foldl (fun s l => (linePoints l).foldl (nearStep p) s) ((⟨0, 0⟩ : Pt), none) := by
    rw [hflat, List.foldl_flatten, List.foldl_map]
  unfold findNearestLinePoint
  rw [← hf]
  cases hs : scanPts lines with
  | nil => simp [firstArgmin]
  | cons t ts =>
    have hstep : (nearStep p ((⟨0, 0⟩ : Pt), none) t) = (t, some (xorRadicand p t)) := by
      simp [nearStep]
    rw [List.foldl_cons, hstep, foldl_nearStep_some]
    cases hfa : firstArgmin (xorRadicand p) ts with
    | none => simp [firstArgmin, hfa]
    | some u =>
      by_cases hu : xorRadicand p u < xorRadicand p t
      · simp [firstArgmin, hfa, hu]
      · simp [firstArgmin, hfa, hu]

theorem firstArgmin_isSome (f : Pt → Nat) (pts : List Pt) (h : pts ≠ []) :
    (firstArgmin f pts).isSome := by
  cases pts with
  | nil => exact absurd rfl h
  | cons t ts =>
    cases hfa : firstArgmin f ts with
    | none => simp [firstArgmin, hfa]
    | some u => by_cases hu : f u < f t <;> simp [firstArgmin, hfa, hu]

theorem firstArgmin_eq_none (f : Pt → Nat) (pts : List Pt) :
    firstArgmin f pts = none ↔ pts = [] := by
  cases pts with
  | nil => simp [firstArgmin]
  | cons t ts =>
    simp only [firstArgmin]
    cases firstArgmin f ts with
    | none => simp
    | some v => by_cases hv : f v < f t <;> simp [hv]

theorem firstArgmin_mem (f : Pt → Nat) (pts : List Pt) (u : Pt)
    (h : firstArgmin f pts = some u) : u ∈ pts := by
  induction pts with
  | nil => exact absurd h (by simp [firstArgmin])
  | cons t ts ih =>
    cases hfa : firstArgmin f ts with
    | none =>
      simp only [firstArgmin, hfa] at h
      simp at h
      simp [h]
    | some v =>
      simp only [firstArgmin, hfa] at h
      by_cases hv : f v < f t
      · rw [if_pos hv] at h
        have huv : v = u := Option.some_inj.mp h
        subst huv
        exact List.mem_cons_of_mem t (ih hfa)
      · rw [if_neg hv] at h
        have htu : t = u := Option.some_inj.mp h
        subst htu
        exact List.mem_cons_self t ts

theorem firstArgmin_le (f : Pt → Nat) (pts : List Pt) :
    ∀ u, firstArgmin f pts = some u → ∀ q ∈ pts, f u ≤ f q := by
  induction pts with
  | nil => simp
  | cons t ts ih =>
    intro u h q hq
    cases hfa : firstArgmin f ts with
    | none =>
      have hts : ts = [] := (firstArgmin_eq_none f ts).mp hfa
      subst hts
      simp only [firstArgmin] at h
      simp at h
      subst h
      rcases List.mem_singleton.mp hq with rfl
      exact le_refl _
    | some v =>
      simp only [firstArgmin, hfa] at h
      by_cases hv : f v < f t
      · rw [if_pos hv] at h
        have huv : v = u := Option.some_inj.mp h
        subst huv
        rcases List.mem_cons.mp hq with rfl | hq'
        · exact le_of_lt hv
        · exact ih v hfa q hq'
      · rw [if_neg hv] at h
        have htu : t = u := Option.some_inj.mp h
        subst htu
        rcases List.mem_cons.mp hq with rfl | hq'
        · exact le_refl _
        · exact le_trans (le_of_not_lt hv) (ih v hfa q hq')

theorem firstArgmin_earliest (f : Pt → Nat) (pts : List Pt) (u : Pt)
    (h : firstArgmin f pts = some u) :
    ∃ l1 l2, pts = l1 ++ u :: l2 ∧ ∀ q ∈ l1, f u < f q := by
  induction pts with
  | nil => exact absurd h (by simp [firstArgmin])
  | cons t ts ih =>
    cases hfa : firstArgmin f ts with
    | none =>
      simp only [firstArgmin, hfa] at h
      simp at h
      exact ⟨[], ts, by simp [h], by simp⟩
    | some v =>
      simp only [firstArgmin, hfa] at h
      by_cases hv : f v < f t
      · rw [if_pos hv] at h
        have huv : v = u := Option.some_inj.mp h
        subst huv
        rcases ih hfa with ⟨l1, l2, hsplit, hlt⟩
        refine ⟨t :: l1, l2, by simp [hsplit], ?_⟩
        intro q hq
        rcases List.mem_cons.mp hq with rfl | hq'
        · exact hv
        · exact hlt q hq'
      · rw [if_neg hv] at h
        have htu : t = u := Option.some_inj.mp h
        subst htu
        exact ⟨[], ts, by simp, by simp⟩

theorem scanPts_ne_nil (lines : List Line) (h : lines ≠ []) : scanPts lines ≠ [] := by
  cases lines with
  | nil => exact absurd rfl h
  | cons l ls => simp [scanPts, linePoints]

/-- Per-sheet net counts in `{0, 1}` make the document-wide occurrence
count of `countNets` agree with the number of sheets declaring the
net. -/
theorem countNets_eq_sheetCount (sheets : List (List String)) (name : String)
    (huniq : ∀ sh ∈ sheets, sh.count name ≤ 1) :
    countNets sheets name = sheets.countP (fun sh => decide (name ∈ sh)) := by
  induction sheets with
  | nil => rfl
  | cons sh rest ih =>
    have h1 := huniq sh (List.mem_cons_self sh rest)
    have ih' := ih (fun s hs => huniq s (List.mem_cons_of_mem sh hs))
    simp only [countNets, List.map_cons, List.sum_cons] at ih' ⊢
    rw [List.countP_cons]
    by_cases hm : name ∈ sh
    · have hpos : 0 < sh.count name := List.count_pos_iff.mpr hm
      have hc1 : sh.count name = 1 := le_antisymm h1 hpos
      simp [hm, hc1, ih']
      omega
    · have hc0 : sh.count name = 0 := by
        rw [List.count_eq_zero]; exact hm
      simp [hm, hc0, ih']

/-! ### Claim theorems -/

/-- Wire list of claim C5's counterexample. -/
def c5Wires : List Line := [⟨.wireL, ⟨9, 0⟩, ⟨9, 0⟩⟩, ⟨.wireL, ⟨8, 0⟩, ⟨8, 0⟩⟩]

/-- C5 counterexample: a label at `(10, 0)` hitting no wire of its
segment is re-homed by `loadLabel` to `(8, 0)`, although the scanned
point `(9, 0)` is strictly closer in true Euclidean distance — the
source's `^` is bitwise xor, not a power, so the claimed
Euclidean-nearest re-homing is false. -/
theorem claim_C5_counterexample :
    (∀ w ∈ c5Wires, onSegment (⟨10, 0⟩ : Pt) w.a w.b = false)
    ∧ (loadLabel (fun _ => 1) "N" ⟨⟨10, 0⟩, 10, none⟩ c5Wires).pos = ⟨8, 0⟩
    ∧ (⟨9, 0⟩ : Pt) ∈ scanPts c5Wires
    ∧ euclidSq ⟨10, 0⟩ ⟨9, 0⟩ < euclidSq ⟨10, 0⟩ ⟨8, 0⟩ := by decide

/-- C5 (amended): a label whose position hits no wire of its non-empty
segment is moved to the earliest scanned point (start, midpoint, end of
each wire, scanned linearly) minimising the source's metric
`natAbs((dx xor 2) + (dy xor 2))` — the `^` of the source being bitwise
xor — with ties keeping the earliest-found point. -/
theorem claim_C5_amended (counts : String → Nat) (netName : String) (el : ELabel)
    (wires : List Line) (hw : wires ≠ [])
    (hmiss : ∀ w ∈ wires, onSegment el.pos w.a w.b = false) :
    ∃ u, firstArgmin (xorRadicand el.pos) (scanPts wires) = some u
      ∧ (loadLabel counts netName el wires).pos = u
      ∧ u ∈ scanPts wires
      ∧ (∀ q ∈ scanPts wires, xorRadicand el.pos u ≤ xorRadicand el.pos q)
      ∧ ∃ l1 l2, scanPts wires = l1 ++ u :: l2
          ∧ ∀ q ∈ l1, xorRadicand el.pos u < xorRadicand el.pos q := by
  have hne := scanPts_ne_nil wires hw
  have hsome := firstArgmin_isSome (xorRadicand el.pos) (scanPts wires) hne
  rcases Option.isSome_iff_exists.mp hsome with ⟨u, hu⟩
  refine ⟨u, hu, ?_, firstArgmin_mem _ _ _ hu, firstArgmin_le _ _ u hu,
    firstArgmin_earliest _ _ _ hu⟩
  have hany : wires.any (fun w => onSegment el.pos w.a w.b) = false := by
    rw [List.any_eq_false]
    intro w hwm
    simp [hmiss w hwm]
  have hempty : wires.isEmpty = false := by
    cases wires with
    | nil => exact absurd rfl hw
    | cons a as => rfl
  show (loadLabel counts netName el wires).pos = u
  simp only [loadLabel, hany, hempty, Bool.not_false, Bool.and_self, if_true]
  rw [findNearest_eq_firstArgmin, hu]

/-- C5 amended theorem, witnessed at the counterexample's wires. -/
theorem claim_C5_amended_witness :
    c5Wires ≠ []
    ∧ ∃ u, firstArgmin (xorRadicand ⟨10, 0⟩) (scanPts c5Wires) = some u
      ∧ (loadLabel (fun _ => 2) "N" ⟨⟨10, 0⟩, 10, none⟩ c5Wires).pos = u
      ∧ u ∈ scanPts c5Wires
      ∧ (∀ q ∈ scanPts c5Wires, xorRadicand ⟨10, 0⟩ u ≤ xorRadicand ⟨10, 0⟩ q)
      ∧ ∃ l1 l2, scanPts c5Wires = l1 ++ u :: l2
          ∧ ∀ q ∈ l1, xorRadicand ⟨10, 0⟩ u < xorRadicand ⟨10, 0⟩ q :=
  ⟨by decide, claim_C5_amended (fun _ => 2) "N" ⟨⟨10, 0⟩, 10, none⟩ c5Wires
    (by decide) (by decide)⟩

/-- C3: an explicit label resolves to a global label exactly when the
`countNets` occurrence count of its net name exceeds 1, which — when no
sheet declares the same net name twice — is exactly when the name
occurs in net elements of more than one sheet. -/
theorem claim_C3_label_scope (sheets : List (List String)) (name : String)
    (el : ELabel) (wires : List Line)
    (huniq : ∀ sh ∈ sheets, sh.count name ≤ 1) :
    ((loadLabel (countNets sheets) name el wires).global = true
        ↔ 1 < countNets sheets name)
      ∧ ((loadLabel (countNets sheets) name el wires).global = true
        ↔ 1 < sheets.countP (fun sh => decide (name ∈ sh))) := by
  have hglobal : (loadLabel (countNets sheets) name el wires).global
      = decide (1 < countNets sheets name) := rfl
  constructor
  · rw [hglobal]
    exact decide_eq_true_iff
  · rw [hglobal, countNets_eq_sheetCount sheets name huniq]
    exact decide_eq_true_iff

/-- C3 witnessed on a concrete document: `VCC` on two sheets is global,
with occurrence count 2. -/
theorem claim_C3_witness :
    (∀ sh ∈ [["VCC", "N1"], ["VCC"]], sh.count "VCC" ≤ 1)
    ∧ (((loadLabel (countNets [["VCC", "N1"], ["VCC"]]) "VCC"
          ⟨⟨0, 0⟩, 10, none⟩ []).global = true
        ↔ 1 < countNets [["VCC", "N1"], ["VCC"]] "VCC")
      ∧ (((loadLabel (countNets [["VCC", "N1"], ["VCC"]]) "VCC"
          ⟨⟨0, 0⟩, 10, none⟩ []).global = true)
        ↔ 1 < ([["VCC", "N1"], ["VCC"]].countP (fun sh => decide ("VCC" ∈ sh))))) :=
  ⟨by decide,
    claim_C3_label_scope [["VCC", "N1"], ["VCC"]] "VCC" ⟨⟨0, 0⟩, 10, none⟩ [] (by decide)⟩

/-- Net counts of claim C2's counterexample: net `N` occurs on two
sheets. -/
def c2Counts : String → Nat := fun n => if n == "N" then 2 else 0

/-- Segment list of claim C2's counterexample: a single unlabelled
segment holding one wire. -/
def c2Segments : List Segment := [⟨[.wireC ⟨.wireL, ⟨0, 0⟩, ⟨100, 0⟩⟩]⟩]

/-- C2 counterexample: a net with exactly one segment on the sheet
(segment count 1) and cross-sheet occurrence count 2 still receives a
synthesised (global) label at the first wire's midpoint — refuting that
a label is synthesised `only when the net has more than one segment on
that sheet`. -/
theorem claim_C2_counterexample :
    c2Segments.length = 1
    ∧ (∀ seg ∈ c2Segments, segLabelled seg = false)
    ∧ loadSegments c2Counts "N" c2Segments
        = [.labelI { global := true, pos := ⟨50, 0⟩, text := "N",
                     size := ⟨10, 10⟩, spin := 0 },
           .wireI ⟨.wireL, ⟨0, 0⟩, ⟨100, 0⟩⟩] := by decide

/-- C2 (amended): a segment's output is its walked items, then the
synthesised implicit label, then its wires; the implicit label exists
exactly when the segment is unlabelled, has a wire, and the net either
spans several sheets (count above 1 — regardless of the per-sheet
segment count, giving a global label) or has several segments on this
sheet (giving a local label); it sits at the first wire's midpoint with
the escaped net name. -/
theorem claim_C2_amended (counts : String → Nat) (name : String)
    (segCount : Nat) (seg : Segment) :
    loadSegment counts name segCount seg
      = segmentWalkItems counts name seg
        ++ ((segmentSynth counts name segCount seg).map NetItem.labelI).toList
        ++ (segmentWires seg).map NetItem.wireI
    ∧ ((segmentSynth counts name segCount seg).isSome
        ↔ (segLabelled seg = false ∧ segmentWires seg ≠ []
            ∧ (1 < counts name ∨ 1 < segCount)))
    ∧ (∀ L, segmentSynth counts name segCount seg = some L →
        (L.global = true ↔ 1 < counts name)
        ∧ (∃ w, (segmentWires seg).head? = some w ∧ L.pos = midPoint w)
        ∧ L.text = escapeName name ∧ L.size = ⟨10, 10⟩) := by
  cases hw : (segmentWires seg).head? with
  | none =>
    have hnil : segmentWires seg = [] := List.head?_eq_none_iff.mp hw
    refine ⟨?_, ?_, ?_⟩
    · simp [loadSegment, segmentSynth, hw]
    · simp [segmentSynth, hw, hnil]
    · intro L hL
      simp [segmentSynth, hw] at hL
  | some w =>
    have hne : segmentWires seg ≠ [] := by
      intro hnil
      rw [hnil] at hw
      exact absurd hw (by simp)
    by_cases hl : segLabelled seg
    · refine ⟨?_, ?_, ?_⟩
      · simp [loadSegment, segmentSynth, hw, hl]
      · simp [segmentSynth, hw, hl]
      · intro L hL
        simp [segmentSynth, hw, hl] at hL
    · by_cases hc : 1 < counts name
      · refine ⟨?_, ?_, ?_⟩
        · simp [loadSegment, segmentSynth, hw, hl, hc]
        · simp [segmentSynth, hw, hl, hc, hne]
        · intro L hL
          simp only [segmentSynth, hw, hl, hc] at hL
          simp at hL
          subst hL
          exact ⟨by simp [hc], ⟨w, rfl, rfl⟩, rfl, rfl⟩
      · by_cases hsc : 1 < segCount
        · refine ⟨?_, ?_, ?_⟩
          · simp [loadSegment, segmentSynth, hw, hl, hc, hsc]
          · simp [segmentSynth, hw, hl, hc, hsc, hne]
          · intro L hL
            simp only [segmentSynth, hw, hl, hc, hsc] at hL
            simp at hL
            subst hL
            exact ⟨by simp [hc], ⟨w, rfl, rfl⟩, rfl, rfl⟩
        · refine ⟨?_, ?_, ?_⟩
          · simp [loadSegment, segmentSynth, hw, hl, hc, hsc]
          · simp [segmentSynth, hw, hl, hc, hsc]
          · intro L hL
            simp [segmentSynth, hw, hl, hc, hsc] at hL

/-- C2 amended theorem, witnessed at the counterexample's segment. -/
theorem claim_C2_amended_witness :
    loadSegment c2Counts "N" 1 ⟨[.wireC ⟨.wireL, ⟨0, 0⟩, ⟨100, 0⟩⟩]⟩
      = segmentWalkItems c2Counts "N" ⟨[.wireC ⟨.wireL, ⟨0, 0⟩, ⟨100, 0⟩⟩]⟩
        ++ ((segmentSynth c2Counts "N" 1 ⟨[.wireC ⟨.wireL, ⟨0, 0⟩, ⟨100, 0⟩⟩]⟩).map
              NetItem.labelI).toList
        ++ (segmentWires ⟨[.wireC ⟨.wireL, ⟨0, 0⟩, ⟨100, 0⟩⟩]⟩).map NetItem.wireI
    ∧ ((segmentSynth c2Counts "N" 1 ⟨[.wireC ⟨.wireL, ⟨0, 0⟩, ⟨100, 0⟩⟩]⟩).isSome
        ↔ (segLabelled ⟨[.wireC ⟨.wireL, ⟨0, 0⟩, ⟨100, 0⟩⟩]⟩ = false
            ∧ segmentWires ⟨[.wireC ⟨.wireL, ⟨0, 0⟩, ⟨100, 0⟩⟩]⟩ ≠ []
            ∧ (1 < c2Counts "N" ∨ 1 < 1)))
    ∧ (∀ L, segmentSynth c2Counts "N" 1 ⟨[.wireC ⟨.wireL, ⟨0, 0⟩, ⟨100, 0⟩⟩]⟩ = some L →
        (L.global = true ↔ 1 < c2Counts "N")
        ∧ (∃ w, (segmentWires ⟨[.wireC ⟨.wireL, ⟨0, 0⟩, ⟨100, 0⟩⟩]⟩).head? = some w
            ∧ L.pos = midPoint w)
        ∧ L.text = escapeName "N" ∧ L.size = ⟨10, 10⟩) :=
  claim_C2_amended c2Counts "N" 1 ⟨[.wireC ⟨.wireL, ⟨0, 0⟩, ⟨100, 0⟩⟩]⟩

/-- The pins among a list of draw items, in order. -/
def pinsOf (items : List LibItem) : List LibPin :=
  items.filterMap (fun it =>
    match it with
    | .pinI p => some p
    | _ => none)

/-- The number of pin children of a symbol. -/
def countPins (children : List SymChild) : Nat :=
  children.countP (fun c =>
    match c with
    | .pinC _ => true
    | _ => false)

/-- The names of a symbol's pin children, in order. -/
def pinNames (children : List SymChild) : List String :=
  children.filterMap (fun c =>
    match c with
    | .pinC p => some p.name
    | _ => none)

theorem processPin_unit (dev : EDevice) (gName : String) (gNum pincount : Nat)
    (pin1 : LibPin) :
    ∀ q ∈ processPin dev gName gNum pincount pin1, q.unit = gNum := by
  intro q hq
  unfold processPin at hq
  by_cases he : dev.connects.isEmpty
  · rw [if_pos he] at hq
    rcases List.mem_singleton.mp hq with rfl
    rfl
  · rw [if_neg he] at hq
    cases hf : dev.connects.find? (fun k => k.gate == gName && pin1.name == k.pin) with
    | none => rw [hf] at hq; simp at hq
    | some c =>
      rw [hf] at hq
      simp only [List.mem_map] at hq
      rcases hq with ⟨pad, _, rfl⟩
      rfl

theorem symGo_units (dev : EDevice) (g : Nat) (gname : String) :
    ∀ (children : List SymChild) (pc : Nat) (it : LibItem),
      it ∈ (symGo dev g gname pc children).1 → it.unit = g := by
  intro children
  induction children with
  | nil => intro pc it h; simp [symGo] at h
  | cons c cs ih =>
    intro pc it h
    cases c with
    | circleC =>
      simp only [symGo] at h
      rcases List.mem_cons.mp h with rfl | h'
      · rfl
      · exact ih pc it h'
    | rectC =>
      simp only [symGo] at h
      rcases List.mem_cons.mp h with rfl | h'
      · rfl
      · exact ih pc it h'
    | polygonC =>
      simp only [symGo] at h
      rcases List.mem_cons.mp h with rfl | h'
      · rfl
      · exact ih pc it h'
    | wireC curved =>
      simp only [symGo] at h
      rcases List.mem_cons.mp h with rfl | h'
      · cases curved <;> rfl
      · exact ih pc it h'
    | textC content =>
      simp only [symGo] at h
      by_cases hu : (upperStr content == ">NAME" || upperStr content == ">VALUE") = true
      · rw [if_pos hu] at h
        exact ih pc it h
      · rw [if_neg hu] at h
        rcases List.mem_cons.mp h with rfl | h'
        · rfl
        · exact ih pc it h'
    | pinC ePin =>
      simp only [symGo] at h
      rcases List.mem_append.mp h with h' | h'
      · simp only [List.mem_map] at h'
        rcases h' with ⟨q, hq, rfl⟩
        show q.unit = g
        exact processPin_unit _ _ _ _ _ q hq
      · exact ih (pc + 1) it h'

/-- With no connect entries, the pins the symbol loop emits are exactly
its pin children in order, numbered `pc+1, pc+2, …` and keeping their
names. -/
theorem symGo_noconnect (dev : EDevice) (g : Nat) (gname : String)
    (hconn : dev.connects = []) :
    ∀ (children : List SymChild) (pc : Nat),
      (pinsOf (symGo dev g gname pc children).1).map LibPin.number
          = (List.range' (pc + 1) (countPins children)).map (fun n => toString n)
        ∧ (pinsOf (symGo dev g gname pc children).1).map LibPin.name
          = pinNames children := by
  intro children
  induction children with
  | nil => intro pc; simp [symGo, pinsOf, countPins, pinNames]
  | cons c cs ih =>
    intro pc
    cases c with
    | circleC => simpa [symGo, pinsOf, countPins, pinNames] using ih pc
    | rectC => simpa [symGo, pinsOf, countPins, pinNames] using ih pc
    | polygonC => simpa [symGo, pinsOf, countPins, pinNames] using ih pc
    | wireC curved =>
      cases curved <;> simpa [symGo, pinsOf, countPins, pinNames] using ih pc
    | textC content =>
      by_cases hu : (upperStr content == ">NAME" || upperStr content == ">VALUE") = true
      · simpa [symGo, hu, pinsOf, countPins, pinNames] using ih pc
      · simpa [symGo, hu, pinsOf, countPins, pinNames] using ih pc
    | pinC ePin =>
      have hie : dev.connects.isEmpty = true := by simp [hconn]
      have hadd : ∀ pin1 : LibPin,
          processPin dev gname g (pc + 1) pin1
            = [{ pin1 with unit := g, number := toString (pc + 1) }] := by
        intro pin1
        simp [processPin, hie]
      cases hd : ePin.direction with
      | none =>
        have := ih (pc + 1)
        simp only [symGo, hd, hadd]
        simp only [pinsOf, countPins, pinNames, List.filterMap_cons, List.countP_cons,
          List.map_cons, List.range'] at this ⊢
        simp [this.1, this.2, loadPin, List.range']
      | some d =>
        have := ih (pc + 1)
        simp only [symGo, hd, hadd]
        simp only [pinsOf, countPins, pinNames, List.filterMap_cons, List.countP_cons,
          List.map_cons, List.range'] at this ⊢
        simp [this.1, this.2, loadPin, List.range']

/-- C4: pin fan-out.  With connect entries present and the first entry
matching `(gate, pin name)` carrying the pad list `c.pad`, the pin is
cloned once per space-separated pad token, all clones sharing the
escaped pin name and the gate's unit, the clone numbers being exactly
the pad tokens, and the number text being suppressed (size 0) on every
clone when there is more than one pad.  With no connect entries at all,
the symbol's pins are emitted once each, numbered by their 1-based
encounter order and keeping their names. -/
theorem claim_C4_pin_fanout :
    (∀ (dev : EDevice) (gName : String) (gNum pincount : Nat) (pin1 : LibPin)
        (c : Connect),
      dev.connects ≠ [] →
      dev.connects.find? (fun k => k.gate == gName && pin1.name == k.pin) = some c →
      (processPin dev gName gNum pincount pin1).length = (wxSplitSpace c.pad).length
        ∧ (processPin dev gName gNum pincount pin1).map LibPin.number = wxSplitSpace c.pad
        ∧ (∀ it ∈ processPin dev gName gNum pincount pin1,
            it.name = escapeName pin1.name ∧ it.unit = gNum)
        ∧ (1 < (wxSplitSpace c.pad).length →
            ∀ it ∈ processPin dev gName gNum pincount pin1, it.numberTextSize = some 0))
    ∧ (∀ (dev : EDevice) (gNum : Nat) (gName : String) (children : List SymChild),
      dev.connects = [] →
      (pinsOf (loadSymbol dev gNum gName children).1).map LibPin.number
          = (List.range' 1 (countPins children)).map (fun n => toString n)
        ∧ (pinsOf (loadSymbol dev gNum gName children).1).map LibPin.name
          = pinNames children
        ∧ (∀ q ∈ pinsOf (loadSymbol dev gNum gName children).1, q.unit = gNum)) := by
  constructor
  · intro dev gName gNum pincount pin1 c hne hfind
    have hie : dev.connects.isEmpty = false := by
      cases h : dev.connects with
      | nil => exact absurd h hne
      | cons a as => rfl
    have hpp : processPin dev gName gNum pincount pin1
        = (wxSplitSpace c.pad).map (fun pad =>
            { pin1 with
              unit := gNum
              name := escapeName pin1.name
              numberTextSize :=
                if 1 < (wxSplitSpace c.pad).length then some 0 else pin1.numberTextSize
              number := pad }) := by
      simp [processPin, hie, hfind]
    refine ⟨by simp [hpp], ?_, ?_, ?_⟩
    · rw [hpp, List.map_map]
      have hcomp : (LibPin.number ∘ fun pad =>
          { pin1 with
            unit := gNum
            name := escapeName pin1.name
            numberTextSize :=
              if 1 < (wxSplitSpace c.pad).length then some 0 else pin1.numberTextSize
            number := pad }) = fun pad => pad := rfl
      rw [hcomp]
      exact List.map_id _
    · intro it hit
      rw [hpp] at hit
      rcases List.mem_map.mp hit with ⟨pad, _, rfl⟩
      exact ⟨rfl, rfl⟩
    · intro hgt it hit
      rw [hpp] at hit
      rcases List.mem_map.mp hit with ⟨pad, _, rfl⟩
      simp [hgt]
  · intro dev gNum gName children hconn
    have h := symGo_noconnect dev gNum gName hconn children 0
    have hu := symGo_units dev gNum gName children 0
    have hlo : (loadSymbol dev gNum gName children).1 = (symGo dev gNum gName 0 children).1 := by
      unfold loadSymbol
      rfl
    refine ⟨by rw [hlo]; exact h.1, by rw [hlo]; exact h.2, ?_⟩
    intro q hq
    rw [hlo] at hq
    have : (LibItem.pinI q) ∈ (symGo dev gNum gName 0 children).1 := by
      unfold pinsOf at hq
      rcases List.mem_filterMap.mp hq with ⟨it, hit, hmatch⟩
      cases it <;> simp at hmatch
      case pinI p => rw [← hmatch]; exact hit
    exact hu (LibItem.pinI q) this

/-- C4 witnessed on the spec's own example: pad list `"1 2 3"` yields
three clones of pin `P` with numbers `1`, `2`, `3` and suppressed
number text. -/
theorem claim_C4_witness :
    (([⟨"G", "P", "1 2 3"⟩] : List Connect) ≠ []
      ∧ ([⟨"G", "P", "1 2 3"⟩] : List Connect).find?
          (fun k => k.gate == "G" && ("P" : String) == k.pin) = some ⟨"G", "P", "1 2 3"⟩)
    ∧ ((processPin ⟨"D", none, [⟨"G", "P", "1 2 3"⟩]⟩ "G" 1 1
          (loadPin ⟨"P", none, none, none, none⟩ 1)).length
        = (wxSplitSpace "1 2 3").length
      ∧ (processPin ⟨"D", none, [⟨"G", "P", "1 2 3"⟩]⟩ "G" 1 1
          (loadPin ⟨"P", none, none, none, none⟩ 1)).map LibPin.number
        = wxSplitSpace "1 2 3"
      ∧ (∀ it ∈ processPin ⟨"D", none, [⟨"G", "P", "1 2 3"⟩]⟩ "G" 1 1
            (loadPin ⟨"P", none, none, none, none⟩ 1),
          it.name = escapeName "P" ∧ it.unit = 1)
      ∧ (1 < (wxSplitSpace "1 2 3").length →
          ∀ it ∈ processPin ⟨"D", none, [⟨"G", "P", "1 2 3"⟩]⟩ "G" 1 1
              (loadPin ⟨"P", none, none, none, none⟩ 1),
            it.numberTextSize = some 0)) :=
  ⟨⟨by decide, by decide⟩,
    claim_C4_pin_fanout.1 ⟨"D", none, [⟨"G", "P", "1 2 3"⟩]⟩ "G" 1 1
      (loadPin ⟨"P", none, none, none, none⟩ 1) ⟨"G", "P", "1 2 3"⟩
      (by decide) (by decide)⟩

/-- C10: with connect entries present, a pin whose `(gate, pin name)`
matches no entry is silently dropped: no pin draw item is produced for
it. -/
theorem claim_C10_unmatched_pin (dev : EDevice) (gName : String)
    (gNum pincount : Nat) (pin1 : LibPin)
    (hne : dev.connects ≠ [])
    (hnone : dev.connects.find? (fun k => k.gate == gName && pin1.name == k.pin) = none) :
    processPin dev gName gNum pincount pin1 = [] := by
  have hie : dev.connects.isEmpty = false := by
    cases h : dev.connects with
    | nil => exact absurd h hne
    | cons a as => rfl
  simp [processPin, hie, hnone]

/-- C10 witnessed: a pin named `Q` finding no match in a device whose
only connect entry names pin `P` produces nothing. -/
theorem claim_C10_witness :
    (([⟨"G", "P", "1"⟩] : List Connect) ≠ []
      ∧ ([⟨"G", "P", "1"⟩] : List Connect).find?
          (fun k => k.gate == "G" && ("Q" : String) == k.pin) = none)
    ∧ processPin ⟨"D", none, [⟨"G", "P", "1"⟩]⟩ "G" 1 1
        (loadPin ⟨"Q", none, none, none, none⟩ 1) = [] :=
  ⟨⟨by decide, by decide⟩,
    claim_C10_unmatched_pin ⟨"D", none, [⟨"G", "P", "1"⟩]⟩ "G" 1 1
      (loadPin ⟨"Q", none, none, none, none⟩ 1) (by decide) (by decide)⟩

/-- C8: the direction table, evaluated row by row.  Every row of the
claim holds except `oc`: the source assigns `PIN_OPENEMITTER`
(open emitter), not the claimed open-collector type, for the foreign
open-collector token (case-insensitively); a pin decoded through
`loadSymbol` with direction `oc` carries the open-emitter type. -/
theorem claim_C8_direction_table :
    pinDirectionType "sup" = .powerIn
    ∧ pinDirectionType "SUP" = .powerIn
    ∧ pinDirectionType "pas" = .passive
    ∧ pinDirectionType "out" = .output
    ∧ pinDirectionType "in" = .input
    ∧ pinDirectionType "nc" = .nc
    ∧ pinDirectionType "io" = .bidi
    ∧ pinDirectionType "hiz" = .tristate
    ∧ pinDirectionType "xyz" = .unspecified
    ∧ (loadPin ⟨"P", none, none, none, none⟩ 1).etype = .unspecified
    ∧ pinDirectionType "oc" = .openEmitter
    ∧ pinDirectionType "OC" = .openEmitter
    ∧ pinDirectionType "oc" ≠ .openCollector
    ∧ (loadSymbol ⟨"D", none, []⟩ 1 "G" [.pinC ⟨"P", some "oc", none, none, none⟩]).1
        = [.pinI { name := "P", number := "1", unit := 1, etype := .openEmitter,
                   nameTextSize := none, numberTextSize := none, plength := none }] := by
  decide

theorem loadDeviceGo_units (dev : EDevice) :
    ∀ (gates : List EGate) (i : Nat) (it : LibItem),
      it ∈ (loadDeviceGo dev i gates).1 → i ≤ it.unit ∧ it.unit < i + gates.length := by
  intro gates
  induction gates with
  | nil => intro i it h; simp [loadDeviceGo] at h
  | cons g gs ih =>
    intro i it h
    simp only [loadDeviceGo] at h
    rcases List.mem_append.mp h with h' | h'
    · have hunit : it.unit = i := by
        have hlo : (loadSymbol dev i g.name g.symbol).1 = (symGo dev i g.name 0 g.symbol).1 := by
          unfold loadSymbol
          rfl
        rw [hlo] at h'
        exact symGo_units dev i g.name g.symbol 0 it h'
      rw [hunit]
      exact ⟨le_refl i, by simp⟩
    · have := ih (i + 1) it h'
      constructor
      · omega
      · simpa [Nat.add_comm, Nat.add_left_comm] using this.2

/-- C7: a part built from a deviceset with `N` gates has unit count
exactly `N`, and every draw item in it carries a unit tag in
`[1, N]`. -/
theorem claim_C7_unit_tags (dsName : String) (pfx : Option String)
    (dev : EDevice) (gates : List EGate) :
    (loadDevice dsName pfx dev gates).unitCount = gates.length
    ∧ ∀ it ∈ (loadDevice dsName pfx dev gates).items,
        1 ≤ it.unit ∧ it.unit ≤ gates.length := by
  constructor
  · rfl
  · intro it hit
    have hmem : it ∈ (loadDeviceGo dev 1 gates).1 := hit
    have := loadDeviceGo_units dev gates 1 it hmem
    omega

/-- C7 witnessed on a two-gate deviceset. -/
theorem claim_C7_witness :
    (loadDevice "DS" (some "U")
        ⟨"D", none, []⟩
        [⟨"A", [.circleC, .pinC ⟨"P", none, none, none, none⟩]⟩,
         ⟨"B", [.rectC]⟩]).unitCount = 2
    ∧ ∀ it ∈ (loadDevice "DS" (some "U")
        ⟨"D", none, []⟩
        [⟨"A", [.circleC, .pinC ⟨"P", none, none, none, none⟩]⟩,
         ⟨"B", [.rectC]⟩]).items,
        1 ≤ it.unit ∧ it.unit ≤ 2 :=
  claim_C7_unit_tags "DS" (some "U") ⟨"D", none, []⟩
    [⟨"A", [.circleC, .pinC ⟨"P", none, none, none, none⟩]⟩, ⟨"B", [.rectC]⟩]

/-- Import state of claim C6's counterexample: an empty part table. -/
def c6State : ImportState := ⟨[], fun _ => 0, [], []⟩

/-- Instance of claim C6's counterexample: it references part `U1`,
which the part table does not contain. -/
def c6Inst : EInstance := ⟨"U1", "A", ⟨0, 0⟩⟩

/-- C6 counterexample: an instance whose part name is missing from the
part table is not skipped — the source dereferences the null
`unique_ptr` that `m_partlist[...]` inserts (modelled as the error
outcome), so the import does not `continue without failing` as
claimed. -/
theorem claim_C6_counterexample :
    (c6State.partlist.lookup c6Inst.part = none)
    ∧ (loadInstance c6State c6Inst).isOk = false := by
  constructor
  · rfl
  · rfl

/-- C6 (amended): only the unresolved-symbol case is skipped: an
instance whose part resolves but whose symbol name (deviceset + device,
`*` stripped) is missing from the output part library leaves the
whole state — in particular the sheet — unchanged, appending
nothing, without failing. -/
theorem claim_C6_amended (st : ImportState) (inst : EInstance) (epart : EPart)
    (h1 : st.partlist.lookup inst.part = some epart)
    (h2 : st.partlib.lookup (stripStar (epart.deviceset ++ epart.device)) = none) :
    loadInstance st inst = .ok st := by
  simp [loadInstance, h1, h2]

/-- C6 amended theorem witnessed: a resolvable part whose symbol
`DSDEV` is not in the output library is skipped. -/
theorem claim_C6_amended_witness :
    ((⟨[("U1", ⟨"U1", "L", "DS", "DEV", none⟩)], fun _ => 0, [], []⟩ :
        ImportState).partlist.lookup "U1" = some ⟨"U1", "L", "DS", "DEV", none⟩)
    ∧ loadInstance ⟨[("U1", ⟨"U1", "L", "DS", "DEV", none⟩)], fun _ => 0, [], []⟩
        ⟨"U1", "A", ⟨0, 0⟩⟩
      = .ok ⟨[("U1", ⟨"U1", "L", "DS", "DEV", none⟩)], fun _ => 0, [], []⟩ :=
  ⟨rfl,
    claim_C6_amended ⟨[("U1", ⟨"U1", "L", "DS", "DEV", none⟩)], fun _ => 0, [], []⟩
      ⟨"U1", "A", ⟨0, 0⟩⟩ ⟨"U1", "L", "DS", "DEV", none⟩ rfl rfl⟩

theorem findLine_append_nonline (items : List (Nat × SheetItem)) (i n : Nat)
    (it : SheetItem) (hit : ∀ l, it ≠ .lineI l) :
    findLine (items ++ [(n, it)]) i = findLine items i := by
  induction items with
  | nil =>
    by_cases h : n = i
    · subst h
      cases it with
      | lineI l => exact absurd rfl (hit l)
      | entryI pos b => simp [findLine]
      | markerI pos => simp [findLine]
      | labelI pos => simp [findLine]
    · simp [findLine, h]
  | cons q rest ih =>
    cases q with
    | mk j jt =>
      by_cases h : j = i
      · simp [findLine, h]
      · simp [findLine, h, ih]

theorem getLine_append_entry (sh : Sheet) (i : Nat) (pos : Pt) (b : Bool) :
    (sh.append (.entryI pos b)).getLine i = sh.getLine i :=
  findLine_append_nonline sh.items i sh.nextId (.entryI pos b) (fun l h => by cases h)

theorem findLine_labelMap (i : Nat) (w : Line) (newPos : Pt) :
    ∀ items : List (Nat × SheetItem),
      findLine (items.map (fun q =>
          match q.2 with
          | .labelI p => if onSegment p w.a w.b then (q.1, .labelI newPos) else q
          | _ => q)) i
        = findLine items i := by
  intro items
  induction items with
  | nil => rfl
  | cons q rest ih =>
    cases q with
    | mk j it =>
      cases it with
      | lineI l => by_cases h : j = i <;> simp [findLine, h, ih]
      | entryI pos b => by_cases h : j = i <;> simp [findLine, h, ih]
      | markerI pos => by_cases h : j = i <;> simp [findLine, h, ih]
      | labelI p =>
        cases hseg : onSegment p w.a w.b
        · simp only [List.map_cons]
          rw [hseg]
          by_cases h : j = i <;> simp [findLine, h, ih]
        · simp only [List.map_cons]
          rw [hseg]
          by_cases h : j = i <;> simp [findLine, h, ih]

theorem moveLabels_getLine (sh : Sheet) (wid : Nat) (p : Pt) (i : Nat) :
    (moveLabels sh wid p).getLine i = sh.getLine i := by
  unfold moveLabels
  cases hg : sh.getLine wid with
  | none => rfl
  | some w => exact findLine_labelMap i w p sh.items

theorem findLine_setA (i : Nat) (p : Pt) :
    ∀ (items : List (Nat × SheetItem)) (w : Line), findLine items i = some w →
      findLine (items.map (fun q =>
          match q.2 with
          | .lineI l => if q.1 = i then (q.1, .lineI { l with a := p }) else q
          | _ => q)) i
        = some { w with a := p } := by
  intro items
  induction items with
  | nil => intro w h; exact absurd h (by simp [findLine])
  | cons q rest ih =>
    intro w h
    cases q with
    | mk j it =>
      by_cases hj : j = i
      · subst hj
        cases it with
        | lineI l =>
          simp only [findLine, if_pos rfl] at h
          have hl : l = w := Option.some_inj.mp h
          subst hl
          simp only [List.map_cons]
          simp [findLine]
        | entryI pos b => simp [findLine] at h
        | markerI pos => simp [findLine] at h
        | labelI pos => simp [findLine] at h
      · simp only [findLine, if_neg hj] at h
        cases it with
        | lineI l =>
          simp only [List.map_cons]
          rw [if_neg hj]
          simp [findLine, hj, ih w h]
        | entryI pos b => simp [findLine, hj, ih w h]
        | markerI pos => simp [findLine, hj, ih w h]
        | labelI pos => simp [findLine, hj, ih w h]

theorem findLine_setB (i : Nat) (p : Pt) :
    ∀ (items : List (Nat × SheetItem)) (w : Line), findLine items i = some w →
      findLine (items.map (fun q =>
          match q.2 with
          | .lineI l => if q.1 = i then (q.1, .lineI { l with b := p }) else q
          | _ => q)) i
        = some { w with b := p } := by
  intro items
  induction items with
  | nil => intro w h; exact absurd h (by simp [findLine])
  | cons q rest ih =>
    intro w h
    cases q with
    | mk j it =>
      by_cases hj : j = i
      · subst hj
        cases it with
        | lineI l =>
          simp only [findLine, if_pos rfl] at h
          have hl : l = w := Option.some_inj.mp h
          subst hl
          simp only [List.map_cons]
          simp [findLine]
        | entryI pos b => simp [findLine] at h
        | markerI pos => simp [findLine] at h
        | labelI pos => simp [findLine] at h
      · simp only [findLine, if_neg hj] at h
        cases it with
        | lineI l =>
          simp only [List.map_cons]
          rw [if_neg hj]
          simp [findLine, hj, ih w h]
        | entryI pos b => simp [findLine, hj, ih w h]
        | markerI pos => simp [findLine, hj, ih w h]
        | labelI pos => simp [findLine, hj, ih w h]

theorem getLine_setStart_self (sh : Sheet) (i : Nat) (p : Pt) (w : Line)
    (h : sh.getLine i = some w) :
    (sh.setStart i p).getLine i = some { w with a := p } :=
  findLine_setA i p sh.items w h

theorem getLine_setEnd_self (sh : Sheet) (i : Nat) (p : Pt) (w : Line)
    (h : sh.getLine i = some w) :
    (sh.setEnd i p).getLine i = some { w with b := p } :=
  findLine_setB i p sh.items w h

theorem findLine_filter_ne (i : Nat) :
    ∀ items : List (Nat × SheetItem),
      findLine (items.filter (fun q => q.1 ≠ i)) i = none := by
  intro items
  induction items with
  | nil => rfl
  | cons q rest ih =>
    cases q with
    | mk j it =>
      by_cases h : j = i
      · simpa [List.filter_cons, h] using ih
      · simpa [List.filter_cons, h, findLine] using ih

theorem getLine_delete_self (sh : Sheet) (i : Nat) : (sh.delete i).getLine i = none :=
  findLine_filter_ne i sh.items

/-- What the diagonal start case leaves at the wire's identity: the wire
is gone exactly when the re-homed start equals the stale opposite
endpoint, and otherwise survives with the re-homed start. -/
theorem diagStart_getLine (sh : Sheet) (wid : Nat) (ls le : Pt) (w : Line)
    (h : sh.getLine wid = some w) :
    (diagStart sh wid ls le).getLine wid
      = (if diagNewStart ls le = le then none
         else some { w with a := diagNewStart ls le }) := by
  have hpre : ∀ (pos : Pt) (bb : Bool) (mp : Pt),
      (moveLabels (sh.append (.entryI pos bb)) wid mp).getLine wid = some w := by
    intro pos bb mp
    rw [moveLabels_getLine, getLine_append_entry]
    exact h
  simp only [diagStart, diagNewStart]
  by_cases hx : 0 < (ls - le).x
  · by_cases hy : 0 < (ls - le).y
    · simp only [if_pos hx, if_pos hy]
      by_cases hc : ls + (⟨-100, -100⟩ : Pt) = le
      · rw [if_pos hc, if_pos hc]
        exact getLine_delete_self _ wid
      · rw [if_neg hc, if_neg hc]
        exact getLine_setStart_self _ wid _ w (hpre _ _ _)
    · simp only [if_pos hx, if_neg hy]
      by_cases hc : ls + (⟨-100, 100⟩ : Pt) = le
      · rw [if_pos hc, if_pos hc]
        exact getLine_delete_self _ wid
      · rw [if_neg hc, if_neg hc]
        exact getLine_setStart_self _ wid _ w (hpre _ _ _)
  · by_cases hy : 0 < (ls - le).y
    · simp only [if_neg hx, if_pos hy]
      by_cases hc : ls + (⟨100, -100⟩ : Pt) = le
      · rw [if_pos hc, if_pos hc]
        exact getLine_delete_self _ wid
      · rw [if_neg hc, if_neg hc]
        exact getLine_setStart_self _ wid _ w (hpre _ _ _)
    · simp only [if_neg hx, if_neg hy]
      by_cases hc : ls + (⟨100, 100⟩ : Pt) = le
      · rw [if_pos hc, if_pos hc]
        exact getLine_delete_self _ wid
      · rw [if_neg hc, if_neg hc]
        exact getLine_setStart_self _ wid _ w (hpre _ _ _)

/-- What the diagonal end case leaves at the wire's identity. -/
theorem diagEnd_getLine (sh : Sheet) (wid : Nat) (ls le : Pt) (w : Line)
    (h : sh.getLine wid = some w) :
    (diagEnd sh wid ls le).getLine wid
      = (if diagNewEnd ls le = ls then none
         else some { w with b := diagNewEnd ls le }) := by
  have hpre : ∀ (pos : Pt) (bb : Bool) (mp : Pt),
      (moveLabels (sh.append (.entryI pos bb)) wid mp).getLine wid = some w := by
    intro pos bb mp
    rw [moveLabels_getLine, getLine_append_entry]
    exact h
  simp only [diagEnd, diagNewEnd]
  by_cases hx : 0 < (ls - le).x
  · by_cases hy : 0 < (ls - le).y
    · simp only [if_pos hx, if_pos hy]
      by_cases hc : le + (⟨100, 100⟩ : Pt) = ls
      · rw [if_pos hc, if_pos hc]
        exact getLine_delete_self _ wid
      · rw [if_neg hc, if_neg hc]
        exact getLine_setEnd_self _ wid _ w (hpre _ _ _)
    · simp only [if_pos hx, if_neg hy]
      by_cases hc : le + (⟨100, -100⟩ : Pt) = ls
      · rw [if_pos hc, if_pos hc]
        exact getLine_delete_self _ wid
      · rw [if_neg hc, if_neg hc]
        exact getLine_setEnd_self _ wid _ w (hpre _ _ _)
  · by_cases hy : 0 < (ls - le).y
    · simp only [if_neg hx, if_pos hy]
      by_cases hc : le + (⟨-100, 100⟩ : Pt) = ls
      · rw [if_pos hc, if_pos hc]
        exact getLine_delete_self _ wid
      · rw [if_neg hc, if_neg hc]
        exact getLine_setEnd_self _ wid _ w (hpre _ _ _)
    · simp only [if_neg hx, if_neg hy]
      by_cases hc : le + (⟨-100, -100⟩ : Pt) = ls
      · rw [if_pos hc, if_pos hc]
        exact getLine_delete_self _ wid
      · rw [if_neg hc, if_neg hc]
        exact getLine_setEnd_self _ wid _ w (hpre _ _ _)

/-- Sheet of claim C9's counterexample: a vertical bus through the
origin and a horizontal wire of length 100 starting on it. -/
def c9Sheet : Sheet :=
  ⟨[(0, .lineI ⟨.busL, ⟨0, -500⟩, ⟨0, 500⟩⟩),
    (1, .lineI ⟨.wireL, ⟨0, 0⟩, ⟨100, 0⟩⟩)], 2⟩

/-- C9 counterexample: in the horizontal-wire-on-vertical-bus case, the
wire `(0,0)–(100,0)` is re-homed so that its new start equals its
opposite endpoint `(100,0)`, yet the zero-length wire survives on the
sheet (3 items: bus, collapsed wire, bus entry) — refuting deletion in
`every re-homing case`. -/
theorem claim_C9_counterexample :
    (addBusEntries c9Sheet).toOption.map (fun s => (s.getLine 1, s.items.length))
      = some (some ⟨.wireL, ⟨100, 0⟩, ⟨100, 0⟩⟩, 3) := by decide

/-- C9 (amended): only the diagonal (neither-axis-aligned) cases delete
the wire when re-homing collapses it — there, the wire is deleted
exactly when the re-homed endpoint equals the (stale) opposite endpoint,
and otherwise survives re-homed; the axis-aligned cases A and B keep the
collapsed wire (see the counterexample). -/
theorem claim_C9_amended (sh : Sheet) (wid : Nat) (ls le : Pt) (w : Line)
    (h : sh.getLine wid = some w) :
    ((diagNewStart ls le = le → (diagStart sh wid ls le).getLine wid = none)
      ∧ (diagNewStart ls le ≠ le →
          (diagStart sh wid ls le).getLine wid = some { w with a := diagNewStart ls le }))
    ∧ ((diagNewEnd ls le = ls → (diagEnd sh wid ls le).getLine wid = none)
      ∧ (diagNewEnd ls le ≠ ls →
          (diagEnd sh wid ls le).getLine wid = some { w with b := diagNewEnd ls le })) := by
  refine ⟨⟨?_, ?_⟩, ⟨?_, ?_⟩⟩
  · intro hc
    rw [diagStart_getLine sh wid ls le w h, if_pos hc]
  · intro hc
    rw [diagStart_getLine sh wid ls le w h, if_neg hc]
  · intro hc
    rw [diagEnd_getLine sh wid ls le w h, if_pos hc]
  · intro hc
    rw [diagEnd_getLine sh wid ls le w h, if_neg hc]

/-- C9 amended theorem witnessed on a diagonal wire `(0,0)–(300,200)`
sitting alone on a sheet. -/
theorem claim_C9_amended_witness :
    ((diagNewStart ⟨0, 0⟩ ⟨300, 200⟩ = ⟨300, 200⟩ →
        (diagStart ⟨[(0, .lineI ⟨.wireL, ⟨0, 0⟩, ⟨300, 200⟩⟩)], 1⟩ 0
          ⟨0, 0⟩ ⟨300, 200⟩).getLine 0 = none)
      ∧ (diagNewStart ⟨0, 0⟩ ⟨300, 200⟩ ≠ ⟨300, 200⟩ →
          (diagStart ⟨[(0, .lineI ⟨.wireL, ⟨0, 0⟩, ⟨300, 200⟩⟩)], 1⟩ 0
            ⟨0, 0⟩ ⟨300, 200⟩).getLine 0
            = some { layer := .wireL, a := diagNewStart ⟨0, 0⟩ ⟨300, 200⟩, b := ⟨300, 200⟩ }))
    ∧ ((diagNewEnd ⟨0, 0⟩ ⟨300, 200⟩ = ⟨0, 0⟩ →
        (diagEnd ⟨[(0, .lineI ⟨.wireL, ⟨0, 0⟩, ⟨300, 200⟩⟩)], 1⟩ 0
          ⟨0, 0⟩ ⟨300, 200⟩).getLine 0 = none)
      ∧ (diagNewEnd ⟨0, 0⟩ ⟨300, 200⟩ ≠ ⟨0, 0⟩ →
          (diagEnd ⟨[(0, .lineI ⟨.wireL, ⟨0, 0⟩, ⟨300, 200⟩⟩)], 1⟩ 0
            ⟨0, 0⟩ ⟨300, 200⟩).getLine 0
            = some { layer := .wireL, a := ⟨0, 0⟩, b := diagNewEnd ⟨0, 0⟩ ⟨300, 200⟩ })) :=
  claim_C9_amended ⟨[(0, .lineI ⟨.wireL, ⟨0, 0⟩, ⟨300, 200⟩⟩)], 1⟩ 0
    ⟨0, 0⟩ ⟨300, 200⟩ ⟨.wireL, ⟨0, 0⟩, ⟨300, 200⟩⟩ rfl

/-- Sheet of claim C1's failing input: five long vertical buses at
`x = 400, 0, 100, 200, 300` (in that list order) and one horizontal
wire from `(0,0)` to `(300,0)`. -/
def c1Sheet : Sheet :=
  ⟨[(0, .lineI ⟨.busL, ⟨400, -500⟩, ⟨400, 500⟩⟩),
    (1, .lineI ⟨.busL, ⟨0, -500⟩, ⟨0, 500⟩⟩),
    (2, .lineI ⟨.busL, ⟨100, -500⟩, ⟨100, 500⟩⟩),
    (3, .lineI ⟨.busL, ⟨200, -500⟩, ⟨200, 500⟩⟩),
    (4, .lineI ⟨.busL, ⟨300, -500⟩, ⟨300, 500⟩⟩),
    (5, .lineI ⟨.wireL, ⟨0, 0⟩, ⟨300, 0⟩⟩)], 6⟩

/-- C1, evaluated at the failing input: each bus pass re-homes the
wire's start 100 units right, never deleting the wire when it collapses
at `(300,0)`; the zero-length wire is then processed once more as both
a start- and an end-hit, so the run ends with the wire at `(400,0)` —
lying exactly on the first bus — with two bus-entry connectors ending
at that point and no marker.  The claimed `exactly one connector or
exactly one marker, never neither and never both` is false on the
resulting sheet. -/
theorem claim_C1_code_divergence :
    (addBusEntries c1Sheet).toOption.map (fun s =>
      (claimC1 s, entriesFor s ⟨400, 0⟩, markersFor s ⟨400, 0⟩,
        (wireEndpoints s).contains ⟨400, 0⟩, onSomeBus s ⟨400, 0⟩))
      = some (false, 2, 0, true, true) := by decide

end EaglePlugin
